import Mathlib

/-
Shallow embedding of the onboarding wizard of `src/pages/NoWorkspace.tsx`
and the workspace provisioning service of `src/services/workspace.service.ts`.

JS strings are modelled as `List Char`; absent/undefined values as `Option`;
async handlers as atomic state transformers applied at completion of the
handler run, taking the settled result of the awaited call as an argument.
-/

-- ═══ Definitions ═════════════════════════════════════════════════════════════

/-- The character set matched by the JS regex class `\s` and stripped by
`String.prototype.trim` (WhiteSpace ∪ LineTerminator). -/
def jsWhitespace (c : Char) : Bool :=
  decide (c.toNat = 9) || decide (c.toNat = 10) || decide (c.toNat = 11) ||
  decide (c.toNat = 12) || decide (c.toNat = 13) || decide (c.toNat = 32) ||
  decide (c.toNat = 160) || decide (c.toNat = 5760) ||
  (decide (8192 ≤ c.toNat) && decide (c.toNat ≤ 8202)) ||
  decide (c.toNat = 8232) || decide (c.toNat = 8233) || decide (c.toNat = 8239) ||
  decide (c.toNat = 8287) || decide (c.toNat = 12288) || decide (c.toNat = 65279)

/-- Model of `String.prototype.trim`: strip leading and trailing whitespace. -/
def jsTrim (s : List Char) : List Char :=
  ((s.dropWhile jsWhitespace).reverse.dropWhile jsWhitespace).reverse

/-- JS `x || y` for an optional string `x`: `y` when `x` is absent/undefined
or the empty string (falsy), else `x`. -/
def jsOrStr (x : Option (List Char)) (y : List Char) : List Char :=
  match x with
  | some s => if s.isEmpty then y else s
  | none => y

/-- Model of `String.prototype.toLowerCase` on ASCII and the Latin-1
uppercase letters (C0–DE except ×); identity elsewhere. -/
def jsToLower (c : Char) : Char :=
  if 65 ≤ c.toNat ∧ c.toNat ≤ 90 then Char.ofNat (c.toNat + 32)
  else if 192 ≤ c.toNat ∧ c.toNat ≤ 222 ∧ c.toNat ≠ 215 then Char.ofNat (c.toNat + 32)
  else c

/-- NFD decomposition of one character (`String.prototype.normalize('NFD')`),
modelled on the precomposed lowercase Latin-1 letters (the only precomposed
characters reachable after `toLowerCase` in the slug pipeline's Latin-1
domain); identity elsewhere. Combining marks: 768 grave, 769 acute,
770 circumflex, 771 tilde, 776 diaeresis, 778 ring, 807 cedilla. -/
def nfdChar (c : Char) : List Char :=
  if c.toNat = 224 then ['a', Char.ofNat 768]
  else if c.toNat = 225 then ['a', Char.ofNat 769]
  else if c.toNat = 226 then ['a', Char.ofNat 770]
  else if c.toNat = 227 then ['a', Char.ofNat 771]
  else if c.toNat = 228 then ['a', Char.ofNat 776]
  else if c.toNat = 229 then ['a', Char.ofNat 778]
  else if c.toNat = 231 then ['c', Char.ofNat 807]
  else if c.toNat = 232 then ['e', Char.ofNat 768]
  else if c.toNat = 233 then ['e', Char.ofNat 769]
  else if c.toNat = 234 then ['e', Char.ofNat 770]
  else if c.toNat = 235 then ['e', Char.ofNat 776]
  else if c.toNat = 236 then ['i', Char.ofNat 768]
  else if c.toNat = 237 then ['i', Char.ofNat 769]
  else if c.toNat = 238 then ['i', Char.ofNat 770]
  else if c.toNat = 239 then ['i', Char.ofNat 776]
  else if c.toNat = 241 then ['n', Char.ofNat 771]
  else if c.toNat = 242 then ['o', Char.ofNat 768]
  else if c.toNat = 243 then ['o', Char.ofNat 769]
  else if c.toNat = 244 then ['o', Char.ofNat 770]
  else if c.toNat = 245 then ['o', Char.ofNat 771]
  else if c.toNat = 246 then ['o', Char.ofNat 776]
  else if c.toNat = 249 then ['u', Char.ofNat 768]
  else if c.toNat = 250 then ['u', Char.ofNat 769]
  else if c.toNat = 251 then ['u', Char.ofNat 770]
  else if c.toNat = 252 then ['u', Char.ofNat 776]
  else if c.toNat = 253 then ['y', Char.ofNat 769]
  else if c.toNat = 255 then ['y', Char.ofNat 776]
  else [c]

/-- Model of `normalize('NFD')` over a whole string. -/
def nfdExpand : List Char → List Char
  | [] => []
  | c :: rest => nfdChar c ++ nfdExpand rest

/-- The combining-mark range of the regex `/[̀-ͯ]/g`. -/
def combiningMark (c : Char) : Bool :=
  decide (768 ≤ c.toNat) && decide (c.toNat ≤ 879)

/-- Model of `.replace(/[̀-ͯ]/g, '')`. -/
def stripCombining (s : List Char) : List Char :=
  s.filter (fun c => !combiningMark c)

/-- The character set kept by `.replace(/[^a-z0-9\s-]/g, '')`:
ASCII lowercase letters, ASCII digits, whitespace and hyphen. -/
def keepChar (c : Char) : Bool :=
  (decide (97 ≤ c.toNat) && decide (c.toNat ≤ 122)) ||
  (decide (48 ≤ c.toNat) && decide (c.toNat ≤ 57)) ||
  jsWhitespace c || decide (c.toNat = 45)

/-- Model of `.replace(/\s+/g, '-')`: each maximal whitespace run becomes one hyphen.
`prevWs` records whether the previous character belonged to a run. -/
def replaceWsRuns (prevWs : Bool) : List Char → List Char
  | [] => []
  | c :: rest =>
    if jsWhitespace c then
      (if prevWs then [] else ['-']) ++ replaceWsRuns true rest
    else
      c :: replaceWsRuns false rest

/-- Embedding of `toSlug` of `src/pages/NoWorkspace.tsx` (lines 38–45):
lowercase, NFD-normalize, strip combining marks, drop every character that
is not lowercase-alphanumeric/whitespace/hyphen, trim, then replace each
whitespace run by a single hyphen. -/
def toSlug (value : List Char) : List Char :=
  replaceWsRuns false
    (jsTrim ((stripCombining (nfdExpand (value.map jsToLower))).filter keepChar))

/-- The characters a slug may contain: ASCII lowercase, digits, hyphen. -/
def slugChar (c : Char) : Bool :=
  (decide (97 ≤ c.toNat) && decide (c.toNat ≤ 122)) ||
  (decide (48 ≤ c.toNat) && decide (c.toNat ≤ 57)) ||
  decide (c.toNat = 45)

/-- One character of the regex class `[\d\s\-().]`. -/
def phoneTailChar (c : Char) : Bool :=
  c.isDigit || jsWhitespace c || decide (c = '-') || decide (c = '(') ||
  decide (c = ')') || decide (c = '.')

/-- Matcher for the anchored part `\d[\d\s\-().]{6,}$` of the phone regex:
a digit followed by six or more class characters reaching the end. -/
def phoneCore : List Char → Bool
  | [] => false
  | d :: rest => d.isDigit && decide (6 ≤ rest.length) && rest.all phoneTailChar

/-- Matcher compiled from `/^\+?\d[\d\s\-().]{6,}$/`: an optional leading
`+` (which, when the first character is `+`, must be consumed, since `\d`
cannot match `+`), then `phoneCore`. -/
def phoneRegexTest (t : List Char) : Bool :=
  match t with
  | c :: rest => if c = '+' then phoneCore rest else phoneCore (c :: rest)
  | [] => false

/-- Embedding of `looksLikePhone` of `src/pages/NoWorkspace.tsx` (lines 35–36):
test the regex against `name?.trim() ?? ''`. -/
def looksLikePhone (name : Option (List Char)) : Bool :=
  phoneRegexTest (jsTrim (name.getD []))

/-- The phone-placeholder shape as the spec words it: an optional leading
`+`, then a digit, then six or more characters drawn from
digits/whitespace/hyphen/parentheses/period (the regex class `\s` is read
as whitespace). Stated independently of the matcher as an existential
decomposition of the string. -/
def phonePlaceholderShape (t : List Char) : Prop :=
  ∃ d rest, (t = '+' :: d :: rest ∨ t = d :: rest) ∧ d.isDigit = true ∧
    6 ≤ rest.length ∧ ∀ c ∈ rest, phoneTailChar c = true

/-- The wizard step enumeration (`type Step`). -/
inductive Step where
  | profile
  | form
  | success
deriving DecidableEq

/-- Embedding of `CreatedWorkspace` of `src/services/workspace.service.ts`. -/
structure CreatedWorkspace where
  id : List Char
  name : List Char
  slug : List Char
  role : List Char
deriving DecidableEq

/-- A thrown request error, as consumed by the catch blocks:
`responseDataMessage` models the optional chain `err?.response?.data?.message`
(`none` when any link is absent or nullish) and `message` models
`err?.message`. -/
structure ErrObj where
  responseDataMessage : Option (List Char)
  message : Option (List Char)
deriving DecidableEq

/-- A profile object as held by the local identity cache and returned by the
profile-update endpoint: a JS object of string fields, modelled as an
association list where the first match of a key wins. -/
abbrev ProfileObj : Type := List (List Char × List Char)

/-- Property read on a profile object (first match wins). -/
def getField (o : ProfileObj) (k : List Char) : Option (List Char) :=
  (List.find? (fun p => p.1 == k) o).map (fun p => p.2)

/-- JS object-spread override for one key: the later spread's field when
present, else the earlier one's. -/
def fieldOverride (later earlier : Option (List Char)) : Option (List Char) :=
  match later with
  | some v => some v
  | none => earlier

/-- The authenticated identity as seen by the component (`user`); only the
`name` field is consulted, which may be absent. -/
structure AuthUser where
  name : Option (List Char)
deriving DecidableEq

/-- The component state held in `useState` hooks, plus the copy-timer queue
and a model of `document.body`'s child list (node identifiers) so the
clipboard fallback's DOM traffic is observable. The transient `isSubmitting`
and `isFinishing` flags are not modelled: every event below models a handler
run that has already settled, where both are back to `false`. -/
structure WizardState where
  step : Step
  displayName : List Char
  workspaceName : List Char
  workspaceSlug : List Char
  slugEdited : Bool
  createdWorkspace : Option CreatedWorkspace
  error : Option (List Char)
  isCopied : Bool
  copyTimers : List Nat
  domNodes : List Nat
deriving DecidableEq

/-- The `useState` initial values (step `profile`, empty strings, latch off,
nothing created, no error, flag off, no timers), with an empty document body. -/
def initialState : WizardState :=
  ⟨Step.profile, [], [], [], false, none, none, false, [], []⟩

/-- Embedding of `bindCommand` (lines 72–74): `createdWorkspace ? "/bind " +
(slug || id) : ""`, where `slug || id` falls back to the id exactly when the
slug is the empty string (JS string truthiness). -/
def bindCommand (createdWorkspace : Option CreatedWorkspace) : List Char :=
  match createdWorkspace with
  | some w => "/bind ".data ++ (if w.slug.isEmpty then w.id else w.slug)
  | none => []

/-- Embedding of `handleNameChange` (lines 77–81): store the name; recompute the slug
from it unless the latch `slugEdited` is set. -/
def handleNameChange (s : WizardState) (value : List Char) : WizardState :=
  { s with workspaceName := value,
           workspaceSlug := if s.slugEdited then s.workspaceSlug else toSlug value }

/-- Embedding of `handleSlugChange` (lines 83–86): set the latch and store the slugified
input. -/
def handleSlugChange (s : WizardState) (value : List Char) : WizardState :=
  { s with slugEdited := true, workspaceSlug := toSlug value }

/-- Fallback message of `handleSaveName`. -/
def saveNameFallbackMsg : List Char :=
  "Erro ao salvar o nome. Tente novamente.".data

/-- Fallback message of `handleCreateWorkspace`. -/
def createFallbackMsg : List Char :=
  "Ocorreu um erro ao criar o workspace. Tente novamente.".data

/-- Outcome of one completed `handleSaveName` run: the new component state,
the object written to the local cache (`tokenService.setUser`) and the object
broadcast to the identity store (`updateUser`). -/
structure SaveNameOutcome where
  state : WizardState
  cacheWrite : Option ProfileObj
  published : Option ProfileObj
deriving DecidableEq

/-- Embedding of `handleSaveName` (lines 88–121), applied at completion: guard on a
non-blank typed name; on success, merge `{...stored, ...updatedProfile,
name: displayName.trim()}` (spread: later fields win, so the merged
association list reads name first, then the response, then the cache),
write it to the cache, broadcast it and advance to the form step; on failure,
surface `err?.response?.data?.message || err?.message || fallback`. -/
def handleSaveName (s : WizardState) (stored : Option ProfileObj)
    (result : Except ErrObj (Option ProfileObj)) : SaveNameOutcome :=
  if (jsTrim s.displayName).isEmpty then ⟨s, none, none⟩
  else
    match result with
    | .ok updatedProfile =>
      let merged : ProfileObj :=
        ("name".data, jsTrim s.displayName) :: (updatedProfile.getD [] ++ stored.getD [])
      ⟨{ s with error := none, step := Step.form }, some merged, some merged⟩
    | .error err =>
      let msg := jsOrStr err.responseDataMessage (jsOrStr err.message saveNameFallbackMsg)
      ⟨{ s with error := some msg }, none, none⟩

/-- Embedding of `handleCreateWorkspace` (lines 123–146), applied at completion: guard on
a non-blank workspace name; on success, record the created workspace and
advance to the success step; on failure, surface
`err?.response?.data?.message || err?.message || fallback` and change nothing
else. -/
def handleCreateWorkspace (s : WizardState)
    (result : Except ErrObj CreatedWorkspace) : WizardState :=
  if (jsTrim s.workspaceName).isEmpty then s
  else
    match result with
    | .ok w => { s with error := none, createdWorkspace := some w, step := Step.success }
    | .error err =>
      let msg := jsOrStr err.responseDataMessage (jsOrStr err.message createFallbackMsg)
      { s with error := some msg }

/-- A document node identifier not yet present in the body. -/
def freshNode (dom : List Nat) : Nat :=
  dom.foldr max 0 + 1

/-- The DOM traffic of the legacy clipboard fallback (lines 152–157):
`document.createElement` / `appendChild` a fresh textarea node, then
`removeChild` that same node before the handler returns. -/
def legacyCopyDom (dom : List Nat) : List Nat :=
  (dom ++ [freshNode dom]).erase (freshNode dom)

/-- Embedding of `handleCopyCommand` (lines 148–161), applied at completion at instant
`now` (milliseconds): when the clipboard write rejects, run the legacy DOM
fallback; either way set `isCopied` and schedule a timeout for `now + 2500`
that will clear it. -/
def handleCopyCommand (s : WizardState) (now : Nat) (clipboardOk : Bool) : WizardState :=
  let s1 := if clipboardOk then s else { s with domNodes := legacyCopyDom s.domNodes }
  { s1 with isCopied := true, copyTimers := s1.copyTimers ++ [now + 2500] }

/-- Firing of a scheduled `setTimeout(() => setIsCopied(false), 2500)`
callback at instant `t`: if a timer is due at `t` it runs once, clearing the
flag; at any other instant nothing happens. -/
def fireCopyTimer (s : WizardState) (t : Nat) : WizardState :=
  if t ∈ s.copyTimers then
    { s with isCopied := false, copyTimers := s.copyTimers.erase t }
  else s

/-- The mount `useEffect` (lines 64–69): skip the profile step when a user
is present whose name does not look like a phone number and is non-blank
after trimming (`user && !looksLikePhone(user.name) && user.name?.trim()`). -/
def applyInitEffect (user : Option AuthUser) (s : WizardState) : WizardState :=
  match user with
  | some u =>
    if (!looksLikePhone u.name) && !(jsTrim (u.name.getD [])).isEmpty then
      { s with step := Step.form }
    else s
  | none => s

/-- The step the wizard shows after mounting with the given identity. -/
def initialStep (user : Option AuthUser) : Step :=
  (applyInitEffect user initialState).step

/-- One settled interaction with the component: a keystroke in one of the
three inputs, the completion of one of the two network-bound handlers
(carrying the settled result of the awaited call, and for the profile save
the cache snapshot read inside the handler), a completed copy action, a
timer callback, or the mount effect. -/
inductive WEvent where
  | init (user : Option AuthUser)
  | displayNameInput (v : List Char)
  | nameInput (v : List Char)
  | slugInput (v : List Char)
  | profileSaved (stored : Option ProfileObj) (result : Except ErrObj (Option ProfileObj))
  | created (result : Except ErrObj CreatedWorkspace)
  | copyClick (now : Nat) (clipboardOk : Bool)
  | copyTimerFire (t : Nat)

/-- Small-step semantics: dispatch an event to its handler. -/
def stepE (s : WizardState) : WEvent → WizardState
  | .init u => applyInitEffect u s
  | .displayNameInput v => { s with displayName := v }
  | .nameInput v => handleNameChange s v
  | .slugInput v => handleSlugChange s v
  | .profileSaved stored r => (handleSaveName s stored r).state
  | .created r => handleCreateWorkspace s r
  | .copyClick now ok => handleCopyCommand s now ok
  | .copyTimerFire t => fireCopyTimer s t

/-- A JS value as far as the response unwrapping inspects it: `null`,
`undefined`, a string, or an object of named fields. -/
inductive JVal where
  | nullVal
  | undefVal
  | str (s : List Char)
  | obj (fields : List (List Char × JVal))

/-- JS nullish test (`x ?? y` takes `y` exactly when `x` is nullish). -/
def nullish : JVal → Bool
  | .nullVal => true
  | .undefVal => true
  | _ => false

/-- JS property read `v[k]`: the first matching field of an object,
`undefined` when the field is absent or the value is not an object. -/
def getProp (v : JVal) (k : List Char) : JVal :=
  match v with
  | .obj fields =>
    match List.find? (fun p => p.1 == k) fields with
    | some p => p.2
    | none => .undefVal
  | _ => .undefVal

/-- The response unwrapping of `createWorkspace`
(`src/services/workspace.service.ts`, lines 42–44): `data.data ?? data` —
the `data` field of the body when it is present and not nullish, else the
body itself. -/
def unwrapCreateResponse (body : JVal) : JVal :=
  if nullish (getProp body "data".data) then body else getProp body "data".data

-- ═══ Theorems ════════════════════════════════════════════════════════════════

theorem slugChar_not_ws (c : Char) (h : slugChar c = true) : jsWhitespace c = false := by
  cases hw : jsWhitespace c with
  | false => rfl
  | true =>
    exfalso
    simp only [slugChar, Bool.or_eq_true, Bool.and_eq_true, decide_eq_true_eq] at h
    simp only [jsWhitespace, Bool.or_eq_true, Bool.and_eq_true, decide_eq_true_eq] at hw
    omega

theorem keepChar_not_ws_slug (c : Char) (hk : keepChar c = true)
    (hw : jsWhitespace c = false) : slugChar c = true := by
  simp only [keepChar, Bool.or_eq_true, Bool.and_eq_true, decide_eq_true_eq, hw,
    Bool.false_eq_true, false_or, or_false] at hk
  simp only [slugChar, Bool.or_eq_true, Bool.and_eq_true, decide_eq_true_eq]
  omega

theorem slugChar_keep (c : Char) (h : slugChar c = true) : keepChar c = true := by
  simp only [slugChar, Bool.or_eq_true, Bool.and_eq_true, decide_eq_true_eq] at h
  simp only [keepChar, Bool.or_eq_true, Bool.and_eq_true, decide_eq_true_eq]
  omega

theorem slugChar_toLower_fixed (c : Char) (h : slugChar c = true) : jsToLower c = c := by
  simp only [slugChar, Bool.or_eq_true, Bool.and_eq_true, decide_eq_true_eq] at h
  unfold jsToLower
  rw [if_neg (by omega), if_neg (by omega)]

theorem slugChar_nfd_fixed (c : Char) (h : slugChar c = true) : nfdChar c = [c] := by
  simp only [slugChar, Bool.or_eq_true, Bool.and_eq_true, decide_eq_true_eq] at h
  unfold nfdChar
  repeat rw [if_neg (by omega)]

theorem slugChar_not_combining (c : Char) (h : slugChar c = true) :
    combiningMark c = false := by
  cases hw : combiningMark c with
  | false => rfl
  | true =>
    exfalso
    simp only [slugChar, Bool.or_eq_true, Bool.and_eq_true, decide_eq_true_eq] at h
    simp only [combiningMark, Bool.and_eq_true, decide_eq_true_eq] at hw
    omega

theorem mem_dropWhile (p : Char → Bool) (l : List Char) (c : Char)
    (h : c ∈ l.dropWhile p) : c ∈ l := by
  induction l with
  | nil => simp at h
  | cons a t ih =>
    rw [List.dropWhile_cons] at h
    by_cases hp : p a = true
    · rw [if_pos hp] at h
      exact List.mem_cons_of_mem a (ih h)
    · rw [if_neg hp] at h
      exact h

theorem mem_jsTrim (s : List Char) (c : Char) (h : c ∈ jsTrim s) : c ∈ s := by
  unfold jsTrim at h
  rw [List.mem_reverse] at h
  have h2 := mem_dropWhile _ _ _ h
  rw [List.mem_reverse] at h2
  exact mem_dropWhile _ _ _ h2

theorem mem_replaceWsRuns (b : Bool) (s : List Char) (c : Char)
    (h : c ∈ replaceWsRuns b s) : c = '-' ∨ (c ∈ s ∧ jsWhitespace c = false) := by
  induction s generalizing b with
  | nil => simp [replaceWsRuns] at h
  | cons a t ih =>
    rw [replaceWsRuns] at h
    by_cases hw : jsWhitespace a = true
    · rw [if_pos hw] at h
      rw [List.mem_append] at h
      rcases h with h | h
      · left
        cases b with
        | true => simp at h
        | false => simpa using h
      · rcases ih true h with h2 | ⟨h2, h3⟩
        · exact Or.inl h2
        · exact Or.inr ⟨List.mem_cons_of_mem a h2, h3⟩
    · rw [if_neg hw] at h
      rcases List.mem_cons.mp h with h | h
      · subst h
        exact Or.inr ⟨List.mem_cons_self c t, by simpa using hw⟩
      · rcases ih false h with h2 | ⟨h2, h3⟩
        · exact Or.inl h2
        · exact Or.inr ⟨List.mem_cons_of_mem a h2, h3⟩

theorem toSlug_all_slugChar (s : List Char) : (toSlug s).all slugChar = true := by
  rw [List.all_eq_true]
  intro c hc
  unfold toSlug at hc
  rcases mem_replaceWsRuns _ _ _ hc with h | ⟨hmem, hws⟩
  · subst h
    decide
  · have h2 := mem_jsTrim _ _ hmem
    exact keepChar_not_ws_slug c (List.mem_filter.mp h2).2 hws

theorem map_toLower_fixed (s : List Char) (h : ∀ c ∈ s, slugChar c = true) :
    s.map jsToLower = s := by
  induction s with
  | nil => rfl
  | cons a t ih =>
    rw [List.map_cons, slugChar_toLower_fixed a (h a (List.mem_cons_self a t)),
      ih (fun c hc => h c (List.mem_cons_of_mem a hc))]

theorem nfdExpand_fixed (s : List Char) (h : ∀ c ∈ s, slugChar c = true) :
    nfdExpand s = s := by
  induction s with
  | nil => rfl
  | cons a t ih =>
    rw [nfdExpand, slugChar_nfd_fixed a (h a (List.mem_cons_self a t)),
      ih (fun c hc => h c (List.mem_cons_of_mem a hc))]
    rfl

theorem stripCombining_fixed (s : List Char) (h : ∀ c ∈ s, slugChar c = true) :
    stripCombining s = s := by
  unfold stripCombining
  rw [List.filter_eq_self]
  intro a ha
  rw [slugChar_not_combining a (h a ha)]
  rfl

theorem filter_keepChar_fixed (s : List Char) (h : ∀ c ∈ s, slugChar c = true) :
    s.filter keepChar = s := by
  rw [List.filter_eq_self]
  exact fun a ha => slugChar_keep a (h a ha)

theorem dropWhile_ws_fixed (s : List Char) (h : ∀ c ∈ s, jsWhitespace c = false) :
    s.dropWhile jsWhitespace = s := by
  cases s with
  | nil => rfl
  | cons a t =>
    rw [List.dropWhile_cons, if_neg]
    rw [h a (List.mem_cons_self a t)]
    simp

theorem jsTrim_fixed (s : List Char) (h : ∀ c ∈ s, jsWhitespace c = false) :
    jsTrim s = s := by
  unfold jsTrim
  rw [dropWhile_ws_fixed s h,
    dropWhile_ws_fixed s.reverse (fun c hc => h c (List.mem_reverse.mp hc)),
    List.reverse_reverse]

theorem replaceWsRuns_fixed (b : Bool) (s : List Char)
    (h : ∀ c ∈ s, jsWhitespace c = false) : replaceWsRuns b s = s := by
  induction s generalizing b with
  | nil => rfl
  | cons a t ih =>
    rw [replaceWsRuns, if_neg, ih false (fun c hc => h c (List.mem_cons_of_mem a hc))]
    rw [h a (List.mem_cons_self a t)]
    simp

theorem toSlug_fixed (s : List Char) (h : ∀ c ∈ s, slugChar c = true) :
    toSlug s = s := by
  unfold toSlug
  rw [map_toLower_fixed s h, nfdExpand_fixed s h, stripCombining_fixed s h,
    filter_keepChar_fixed s h,
    jsTrim_fixed s (fun c hc => slugChar_not_ws c (h c hc)),
    replaceWsRuns_fixed false s (fun c hc => slugChar_not_ws c (h c hc))]

theorem toSlug_toSlug (s : List Char) : toSlug (toSlug s) = toSlug s :=
  toSlug_fixed (toSlug s) (List.all_eq_true.mp (toSlug_all_slugChar s))

theorem phoneCore_iff (t : List Char) :
    phoneCore t = true ↔
      ∃ d rest, t = d :: rest ∧ d.isDigit = true ∧ 6 ≤ rest.length ∧
        ∀ c ∈ rest, phoneTailChar c = true := by
  cases t with
  | nil =>
    simp [phoneCore]
  | cons d rest =>
    simp only [phoneCore, Bool.and_eq_true, decide_eq_true_eq, List.all_eq_true]
    constructor
    · rintro ⟨⟨h1, h2⟩, h3⟩
      exact ⟨d, rest, rfl, h1, h2, h3⟩
    · rintro ⟨d2, rest2, heq, h1, h2, h3⟩
      cases heq
      exact ⟨⟨h1, h2⟩, h3⟩

theorem phoneRegexTest_iff (t : List Char) :
    phoneRegexTest t = true ↔ phonePlaceholderShape t := by
  unfold phonePlaceholderShape
  cases t with
  | nil =>
    simp [phoneRegexTest]
  | cons c rest =>
    by_cases hplus : c = '+'
    · subst hplus
      rw [phoneRegexTest, if_pos rfl, phoneCore_iff]
      constructor
      · rintro ⟨d, rest2, heq, h1, h2, h3⟩
        exact ⟨d, rest2, Or.inl (by rw [heq]), h1, h2, h3⟩
      · rintro ⟨d, rest2, heq | heq, h1, h2, h3⟩
        · injection heq with _ h4
          exact ⟨d, rest2, h4, h1, h2, h3⟩
        · injection heq with h4 _
          rw [← h4] at h1
          exact absurd h1 (by decide)
    · rw [phoneRegexTest, if_neg hplus, phoneCore_iff]
      constructor
      · rintro ⟨d, rest2, heq, h1, h2, h3⟩
        exact ⟨d, rest2, Or.inr heq, h1, h2, h3⟩
      · rintro ⟨d, rest2, heq | heq, h1, h2, h3⟩
        · injection heq with h4 _
          exact absurd h4 hplus
        · exact ⟨d, rest2, heq, h1, h2, h3⟩

theorem handleSaveName_state_slug (s : WizardState) (stored : Option ProfileObj)
    (r : Except ErrObj (Option ProfileObj)) :
    (handleSaveName s stored r).state.workspaceSlug = s.workspaceSlug := by
  unfold handleSaveName
  cases r with
  | ok u => split <;> rfl
  | error e => split <;> rfl

theorem handleCreateWorkspace_slug (s : WizardState)
    (r : Except ErrObj CreatedWorkspace) :
    (handleCreateWorkspace s r).workspaceSlug = s.workspaceSlug := by
  unfold handleCreateWorkspace
  cases r with
  | ok w => split <;> rfl
  | error e => split <;> rfl

theorem stepE_slug_invariant (s : WizardState) (e : WEvent)
    (h : toSlug s.workspaceSlug = s.workspaceSlug) :
    toSlug (stepE s e).workspaceSlug = (stepE s e).workspaceSlug := by
  cases e with
  | init u =>
    cases u with
    | none => exact h
    | some usr =>
      simp only [stepE, applyInitEffect]
      split <;> exact h
  | displayNameInput v => exact h
  | nameInput v =>
    simp only [stepE, handleNameChange]
    split
    · exact h
    · exact toSlug_toSlug v
  | slugInput v =>
    exact toSlug_toSlug v
  | profileSaved stored r =>
    simp only [stepE]
    rw [handleSaveName_state_slug]
    exact h
  | created r =>
    simp only [stepE]
    rw [handleCreateWorkspace_slug]
    exact h
  | copyClick now ok =>
    simp only [stepE, handleCopyCommand]
    cases ok <;> exact h
  | copyTimerFire t =>
    simp only [stepE, fireCopyTimer]
    split <;> exact h

theorem foldl_slug_invariant (evs : List WEvent) (s : WizardState)
    (h : toSlug s.workspaceSlug = s.workspaceSlug) :
    toSlug (evs.foldl stepE s).workspaceSlug = (evs.foldl stepE s).workspaceSlug := by
  induction evs generalizing s with
  | nil => exact h
  | cons e t ih => exact ih _ (stepE_slug_invariant s e h)

theorem stepE_latch (s : WizardState) (e : WEvent) (h : s.slugEdited = true) :
    (stepE s e).slugEdited = true := by
  cases e with
  | init u =>
    cases u with
    | none => exact h
    | some usr =>
      simp only [stepE, applyInitEffect]
      split <;> exact h
  | displayNameInput v => exact h
  | nameInput v => exact h
  | slugInput v => rfl
  | profileSaved stored r =>
    simp only [stepE]
    unfold handleSaveName
    cases r with
    | ok u => split <;> exact h
    | error e2 => split <;> exact h
  | created r =>
    simp only [stepE]
    unfold handleCreateWorkspace
    cases r with
    | ok w => split <;> exact h
    | error e2 => split <;> exact h
  | copyClick now ok =>
    simp only [stepE, handleCopyCommand]
    cases ok <;> exact h
  | copyTimerFire t =>
    simp only [stepE, fireCopyTimer]
    split <;> exact h

theorem foldl_latch (evs : List WEvent) (s : WizardState) (h : s.slugEdited = true) :
    (evs.foldl stepE s).slugEdited = true := by
  induction evs generalizing s with
  | nil => exact h
  | cons e t ih => exact ih _ (stepE_latch s e h)

-- ═══ Claim theorems ═══════════════════════════════════════════════════════════

/-- C1: the displayed bind command is the pure, deterministic function
`bindCommand` of the created workspace, equal to the literal `"/bind "`
immediately followed by the workspace's slug — or by its id when the slug is
the empty string — with no surrounding whitespace or quoting; in particular
slug `"pelada-fc"` with id `"abc"` yields exactly `"/bind pelada-fc"` and
slug `""` with id `"abc"` yields exactly `"/bind abc"`. -/
theorem C1_bindCommand_spec :
    (∀ w : CreatedWorkspace,
      bindCommand (some w) = "/bind ".data ++ (if w.slug = [] then w.id else w.slug)) ∧
    bindCommand (some ⟨"abc".data, "Pelada FC".data, "pelada-fc".data, "owner".data⟩) =
      "/bind pelada-fc".data ∧
    bindCommand (some ⟨"abc".data, "Pelada FC".data, "".data, "owner".data⟩) =
      "/bind abc".data := by
  refine ⟨fun w => ?_, by decide, by decide⟩
  show "/bind ".data ++ (if w.slug.isEmpty then w.id else w.slug) = _
  cases hs : w.slug with
  | nil => simp
  | cons a t => simp

/-- C2: one-way latch on slug auto-derivation. After a direct edit of the
slug field, in every state reachable by any further sequence of events the
latch is still set and a workspace-name keystroke leaves the slug field
unchanged. -/
theorem C2_slugEdited_latch (s : WizardState) (v u : List Char) (evs : List WEvent) :
    (evs.foldl stepE (stepE s (WEvent.slugInput v))).slugEdited = true ∧
    (stepE (evs.foldl stepE (stepE s (WEvent.slugInput v)))
        (WEvent.nameInput u)).workspaceSlug =
      (evs.foldl stepE (stepE s (WEvent.slugInput v))).workspaceSlug := by
  have h1 : (stepE s (WEvent.slugInput v)).slugEdited = true := rfl
  have h2 := foldl_latch evs _ h1
  refine ⟨h2, ?_⟩
  simp only [stepE] at h2
  simp only [stepE, handleNameChange]
  rw [if_pos h2]

/-- C3 counterexample: `toSlug` does not replace an interior period between
letters by a hyphen — it deletes it: `toSlug "a.b" = "ab"`, not `"a-b"`. -/
theorem C3_toSlug_period_cex :
    toSlug "a.b".data = "ab".data ∧ toSlug "a.b".data ≠ "a-b".data := by
  decide

/-- C3 as amended: `toSlug` lowercases, strips diacritics, DELETES every
character that is neither alphanumeric nor whitespace nor a hyphen
(punctuation between letters disappears instead of becoming a hyphen),
trims, and collapses each whitespace run to a single hyphen; every output
character is a lowercase ASCII letter, a digit or a hyphen. -/
theorem C3_toSlug_pipeline_spec :
    (∀ s : List Char, (toSlug s).all slugChar = true) ∧
    toSlug "A.B".data = "ab".data ∧
    toSlug "Pelada, da. Sexta".data = "pelada-da-sexta".data ∧
    toSlug "São".data = "sao".data ∧
    toSlug "  x   y  ".data = "x-y".data :=
  ⟨toSlug_all_slugChar, by decide, by decide, by decide, by decide⟩

/-- C4: slug derivation is idempotent — `toSlug (toSlug s) = toSlug s` for
every string — and diacritic-insensitive, with the spec's two examples
bit-exact. -/
theorem C4_toSlug_idempotent :
    (∀ s : List Char, toSlug (toSlug s) = toSlug s) ∧
    toSlug "Pelada da Sexta!".data = "pelada-da-sexta".data ∧
    toSlug "São Paulo FC".data = "sao-paulo-fc".data :=
  ⟨toSlug_toSlug, by decide, by decide⟩

/-- C10 (implicit): in every state reachable from the mount state, the slug
field is a fixed point of `toSlug` — a direct slug edit is itself slugified
before being stored — and hence never contains uppercase letters,
diacritics, whitespace, or anything outside lowercase ASCII alphanumerics
and hyphens. -/
theorem C10_workspaceSlug_fixed_point (evs : List WEvent) :
    toSlug (evs.foldl stepE initialState).workspaceSlug =
      (evs.foldl stepE initialState).workspaceSlug ∧
    ((evs.foldl stepE initialState).workspaceSlug).all slugChar = true := by
  have h := foldl_slug_invariant evs initialState (by decide)
  refine ⟨h, ?_⟩
  rw [← h]
  exact toSlug_all_slugChar _

/-- C5: the wizard requires the profile-collection step exactly when the
identity's name is missing, blank after trimming, or matches the
phone-placeholder shape on the trimmed name (optional leading `+`, a digit,
then six or more characters from digits/whitespace/hyphen/parentheses/
period); otherwise it starts at the workspace-form step. A missing name
trims to the empty string, so the first two cases coincide in
`jsTrim (name.getD []) = []`. The spec's examples are checked bit-exact. -/
theorem C5_initialStep_spec :
    (∀ name : Option (List Char),
      initialStep (some ⟨name⟩) = Step.profile ↔
        (jsTrim (name.getD []) = [] ∨ phonePlaceholderShape (jsTrim (name.getD [])))) ∧
    looksLikePhone (some "+55 11 91234-5678".data) = true ∧
    looksLikePhone (some "11991234567".data) = true ∧
    looksLikePhone (some "Maria Silva".data) = false ∧
    initialStep (some ⟨some "+55 11 91234-5678".data⟩) = Step.profile ∧
    initialStep (some ⟨some "11991234567".data⟩) = Step.profile ∧
    initialStep (some ⟨none⟩) = Step.profile ∧
    initialStep (some ⟨some "Maria Silva".data⟩) = Step.form := by
  refine ⟨fun name => ?_, by decide, by decide, by decide, by decide, by decide,
    by decide, by decide⟩
  have hiff : looksLikePhone name = true ↔ phonePlaceholderShape (jsTrim (name.getD [])) := by
    unfold looksLikePhone
    exact phoneRegexTest_iff _
  cases hp : looksLikePhone name with
  | true =>
    simp only [initialStep, applyInitEffect, initialState, hp]
    simp only [Bool.not_true, Bool.false_and, Bool.false_eq_true, if_false]
    simp only [true_iff]
    exact Or.inr (hiff.mp hp)
  | false =>
    cases he : (jsTrim (name.getD [])).isEmpty with
    | true =>
      have heq : jsTrim (name.getD []) = [] := by rwa [List.isEmpty_iff] at he
      simp only [initialStep, applyInitEffect, initialState, hp, he]
      simp only [Bool.not_false, Bool.not_true, Bool.true_and, Bool.false_eq_true, if_false]
      simp only [true_iff]
      exact Or.inl heq
    | false =>
      simp only [initialStep, applyInitEffect, initialState, hp, he]
      simp only [Bool.not_false, Bool.true_and, if_true]
      constructor
      · intro hstep
        exact absurd hstep (by decide)
      · rintro (hnil | hshape)
        · rw [hnil] at he
          simp at he
        · have h2 := hiff.mpr hshape
          rw [hp] at h2
          exact absurd h2 (by decide)

-- ═══ Helper lemmas for error messages, field reads and the DOM model ══════════

theorem jsOrStr_some_ne (m d : List Char) (h : m ≠ []) : jsOrStr (some m) d = m := by
  simp only [jsOrStr]
  rw [if_neg]
  simp [h]

theorem jsOrStr_none (d : List Char) : jsOrStr none d = d := rfl

theorem jsOrStr_some_nil (d : List Char) : jsOrStr (some []) d = d := rfl

theorem getField_cons_hit (k v : List Char) (o : ProfileObj) :
    getField ((k, v) :: o) k = some v := by
  unfold getField
  rw [List.find?_cons_of_pos _ (by simp)]
  simp

theorem getField_cons_miss (k0 v k : List Char) (o : ProfileObj) (h : k0 ≠ k) :
    getField ((k0, v) :: o) k = getField o k := by
  unfold getField
  rw [List.find?_cons_of_neg _ (by simp [h])]

theorem getField_append (o1 o2 : ProfileObj) (k : List Char) :
    getField (o1 ++ o2) k = fieldOverride (getField o1 k) (getField o2 k) := by
  unfold getField
  rw [List.find?_append]
  cases hf : List.find? (fun p => p.1 == k) o1 with
  | none => simp [Option.or, fieldOverride]
  | some p => simp [Option.or, fieldOverride]

theorem mem_le_foldr_max (l : List Nat) (x : Nat) (h : x ∈ l) : x ≤ l.foldr max 0 := by
  induction l with
  | nil => simp at h
  | cons a t ih =>
    rcases List.mem_cons.mp h with h1 | h1
    · subst h1
      exact le_max_of_le_left (le_refl x)
    · exact le_max_of_le_right (ih h1)

theorem freshNode_not_mem (dom : List Nat) : freshNode dom ∉ dom := by
  intro h
  have h2 := mem_le_foldr_max dom (freshNode dom) h
  unfold freshNode at h2
  omega

theorem legacyCopyDom_id (dom : List Nat) : legacyCopyDom dom = dom := by
  unfold legacyCopyDom
  rw [List.erase_append_right _ (freshNode_not_mem dom), List.erase_cons_head,
    List.append_nil]

/-- C6 counterexample: when the rejection carries no server-supplied message
but the error object has its own `message` (here the transport text
`"Network Error"`), the displayed text is that `err.message`, not the
generic fallback the claim requires. -/
theorem C6_createFailure_cex :
    (handleCreateWorkspace
        ⟨Step.form, [], "Pelada".data, "pelada".data, false, none, none, false, [], []⟩
        (Except.error ⟨none, some "Network Error".data⟩)).error =
      some "Network Error".data ∧
    "Network Error".data ≠ createFallbackMsg := by
  decide

/-- C6 as amended: on every failure of the workspace-creation call (with the
submit guard satisfied), the wizard's step, the typed workspace name and
slug, and the created-workspace cell are all left unchanged (no partial
client-side workspace), and the displayed error is the server-supplied
message when present and non-empty, otherwise the error object's own
message when present and non-empty, otherwise the generic fallback. -/
theorem C6_createFailure_spec (s : WizardState) (e : ErrObj)
    (hname : (jsTrim s.workspaceName).isEmpty = false) :
    (handleCreateWorkspace s (Except.error e)).step = s.step ∧
    (handleCreateWorkspace s (Except.error e)).workspaceName = s.workspaceName ∧
    (handleCreateWorkspace s (Except.error e)).workspaceSlug = s.workspaceSlug ∧
    (handleCreateWorkspace s (Except.error e)).createdWorkspace = s.createdWorkspace ∧
    (∀ m, e.responseDataMessage = some m → m ≠ [] →
      (handleCreateWorkspace s (Except.error e)).error = some m) ∧
    ((e.responseDataMessage = none ∨ e.responseDataMessage = some []) →
      ∀ m, e.message = some m → m ≠ [] →
      (handleCreateWorkspace s (Except.error e)).error = some m) ∧
    ((e.responseDataMessage = none ∨ e.responseDataMessage = some []) →
      (e.message = none ∨ e.message = some []) →
      (handleCreateWorkspace s (Except.error e)).error = some createFallbackMsg) := by
  have hred : handleCreateWorkspace s (Except.error e) =
      { s with
          error := some (jsOrStr e.responseDataMessage (jsOrStr e.message createFallbackMsg)) } := by
    unfold handleCreateWorkspace
    rw [if_neg (by simp [hname])]
  refine ⟨by rw [hred], by rw [hred], by rw [hred], by rw [hred], ?_, ?_, ?_⟩
  · intro m hm hne
    rw [hred]
    show some (jsOrStr e.responseDataMessage (jsOrStr e.message createFallbackMsg)) = some m
    rw [hm, jsOrStr_some_ne _ _ hne]
  · rintro (h0 | h0) m hm hne <;>
      rw [hred] <;>
      show some (jsOrStr e.responseDataMessage (jsOrStr e.message createFallbackMsg)) = some m
    · rw [h0, jsOrStr_none, hm, jsOrStr_some_ne _ _ hne]
    · rw [h0, jsOrStr_some_nil, hm, jsOrStr_some_ne _ _ hne]
  · rintro (h0 | h0) (h1 | h1) <;>
      rw [hred] <;>
      show some (jsOrStr e.responseDataMessage (jsOrStr e.message createFallbackMsg)) =
        some createFallbackMsg
    · rw [h0, jsOrStr_none, h1, jsOrStr_none]
    · rw [h0, jsOrStr_none, h1, jsOrStr_some_nil]
    · rw [h0, jsOrStr_some_nil, h1, jsOrStr_none]
    · rw [h0, jsOrStr_some_nil, h1, jsOrStr_some_nil]

/-- C6 witness: with workspace name `"Pelada"` and a rejection carrying the
server message `"nome já em uso"`, the wizard stays on the form step, the
typed name and slug are untouched, and the displayed text equals exactly
that message. -/
theorem C6_createFailure_witness :
    (jsTrim "Pelada".data).isEmpty = false ∧
    (handleCreateWorkspace
        ⟨Step.form, [], "Pelada".data, "pelada".data, false, none, none, false, [], []⟩
        (Except.error ⟨some "nome já em uso".data, none⟩)).step = Step.form ∧
    (handleCreateWorkspace
        ⟨Step.form, [], "Pelada".data, "pelada".data, false, none, none, false, [], []⟩
        (Except.error ⟨some "nome já em uso".data, none⟩)).workspaceName = "Pelada".data ∧
    (handleCreateWorkspace
        ⟨Step.form, [], "Pelada".data, "pelada".data, false, none, none, false, [], []⟩
        (Except.error ⟨some "nome já em uso".data, none⟩)).workspaceSlug = "pelada".data ∧
    (handleCreateWorkspace
        ⟨Step.form, [], "Pelada".data, "pelada".data, false, none, none, false, [], []⟩
        (Except.error ⟨some "nome já em uso".data, none⟩)).error =
      some "nome já em uso".data := by
  have h := C6_createFailure_spec
    ⟨Step.form, [], "Pelada".data, "pelada".data, false, none, none, false, [], []⟩
    ⟨some "nome já em uso".data, none⟩ (by decide)
  exact ⟨by decide, by rw [h.1], by rw [h.2.1], by rw [h.2.2.1],
    h.2.2.2.2.1 _ rfl (by decide)⟩

/-- C7 counterexample: the published name is the TRIMMED typed string, not
the string exactly as typed: typing `" Ana "` publishes `"Ana"`. -/
theorem C7_saveName_trim_cex :
    (handleSaveName
        ⟨Step.profile, " Ana ".data, [], [], false, none, none, false, [], []⟩
        (some []) (Except.ok (some []))).published =
      some [("name".data, "Ana".data)] ∧
    "Ana".data ≠ " Ana ".data := by
  decide

/-- C7 as amended: on successful completion of the profile step (submit
guard satisfied), the same merged object is written to the local cache and
broadcast to the identity store; its `name` field equals exactly the TRIMMED
string the user typed, and every other field is the server response's value
when the response carries that field, else the cached snapshot's value
(server-returned fields win). -/
theorem C7_saveName_success_spec (s : WizardState) (stored updated : Option ProfileObj)
    (h : (jsTrim s.displayName).isEmpty = false) :
    (handleSaveName s stored (Except.ok updated)).cacheWrite =
      (handleSaveName s stored (Except.ok updated)).published ∧
    (handleSaveName s stored (Except.ok updated)).state.step = Step.form ∧
    (∀ m, (handleSaveName s stored (Except.ok updated)).published = some m →
      getField m "name".data = some (jsTrim s.displayName) ∧
      ∀ k, k ≠ "name".data →
        getField m k =
          fieldOverride (getField (updated.getD []) k) (getField (stored.getD []) k)) := by
  have hred : handleSaveName s stored (Except.ok updated) =
      ⟨{ s with error := none, step := Step.form },
        some (("name".data, jsTrim s.displayName) :: (updated.getD [] ++ stored.getD [])),
        some (("name".data, jsTrim s.displayName) :: (updated.getD [] ++ stored.getD []))⟩ := by
    unfold handleSaveName
    rw [if_neg (by simp [h])]
  refine ⟨by rw [hred], by rw [hred], ?_⟩
  intro m hm
  rw [hred] at hm
  have hm2 : m = ("name".data, jsTrim s.displayName) :: (updated.getD [] ++ stored.getD []) :=
    (Option.some.injEq _ _).mp hm.symm
  subst hm2
  constructor
  · exact getField_cons_hit _ _ _
  · intro k hk
    rw [getField_cons_miss _ _ _ _ (fun h2 => hk h2.symm), getField_append]

/-- C7 witness: typing `"Carlos"` with a cached snapshot holding `phone` and
a server response holding `role`, the published object carries name
`"Carlos"`, the server's `role`, and the cached `phone`. -/
theorem C7_saveName_success_witness :
    (jsTrim "Carlos".data).isEmpty = false ∧
    getField [("name".data, "Carlos".data), ("role".data, "admin".data),
      ("phone".data, "9".data)] "name".data = some "Carlos".data ∧
    getField [("name".data, "Carlos".data), ("role".data, "admin".data),
      ("phone".data, "9".data)] "role".data =
      fieldOverride (getField [("role".data, "admin".data)] "role".data)
        (getField [("phone".data, "9".data)] "role".data) := by
  have h := C7_saveName_success_spec
    ⟨Step.profile, "Carlos".data, [], [], false, none, none, false, [], []⟩
    (some [("phone".data, "9".data)]) (some [("role".data, "admin".data)]) (by decide)
  have h2 := h.2.2 [("name".data, "Carlos".data), ("role".data, "admin".data),
    ("phone".data, "9".data)] (by decide)
  exact ⟨by decide, h2.1, h2.2 "role".data (by decide)⟩

/-- C8: the provisioner returns the created workspace unwrapped from the
response body: an envelope `{ data: w }` with non-nullish `w` yields the
inner `w`, and a body without a `data` field is returned unchanged (both
response shapes are tolerated). -/
theorem C8_unwrapCreateResponse_spec :
    (∀ w : JVal, nullish w = false →
      unwrapCreateResponse (JVal.obj [("data".data, w)]) = w) ∧
    (∀ fields : List (List Char × JVal),
      List.find? (fun p => p.1 == "data".data) fields = none →
      unwrapCreateResponse (JVal.obj fields) = JVal.obj fields) := by
  constructor
  · intro w hw
    have hg : getProp (JVal.obj [("data".data, w)]) "data".data = w := by
      show (match List.find? (fun p => p.1 == "data".data) [("data".data, w)] with
            | some p => p.2
            | none => JVal.undefVal) = w
      rw [List.find?_cons_of_pos _ (by simp)]
    unfold unwrapCreateResponse
    rw [hg, if_neg]
    simp [hw]
  · intro fields hf
    have hg : getProp (JVal.obj fields) "data".data = JVal.undefVal := by
      show (match List.find? (fun p => p.1 == "data".data) fields with
            | some p => p.2
            | none => JVal.undefVal) = JVal.undefVal
      rw [hf]
    unfold unwrapCreateResponse
    rw [hg, if_pos]
    rfl

/-- C8 witness: the envelope `{ data: { id: "w1" } }` unwraps to
`{ id: "w1" }`, and the bare body `{ id: "w1" }` is returned unchanged. -/
theorem C8_unwrapCreateResponse_witness :
    unwrapCreateResponse
        (JVal.obj [("data".data, JVal.obj [("id".data, JVal.str "w1".data)])]) =
      JVal.obj [("id".data, JVal.str "w1".data)] ∧
    unwrapCreateResponse (JVal.obj [("id".data, JVal.str "w1".data)]) =
      JVal.obj [("id".data, JVal.str "w1".data)] :=
  ⟨C8_unwrapCreateResponse_spec.1 _ rfl, C8_unwrapCreateResponse_spec.2 _ rfl⟩

/-- C9 counterexample: two copy clicks 2000 ms apart. The first click's
timer fires at 2500 ms and clears the flag only 500 ms after the second
click — earlier than the fixed 2.5-second delay the claim promises for
every copy action — while the second click's own timer (4500 ms) is still
pending. -/
theorem C9_copyFlag_overlap_cex :
    (handleCopyCommand (handleCopyCommand initialState 0 true) 2000 true).isCopied = true ∧
    (handleCopyCommand (handleCopyCommand initialState 0 true) 2000 true).copyTimers =
      [2500, 4500] ∧
    (fireCopyTimer (handleCopyCommand (handleCopyCommand initialState 0 true) 2000 true)
        2500).isCopied = false ∧
    (fireCopyTimer (handleCopyCommand (handleCopyCommand initialState 0 true) 2000 true)
        2500).copyTimers = [4500] ∧
    2500 < 2000 + 2500 := by
  decide

/-- C9 as amended: after a copy action performed while no revert timer is
pending (whichever clipboard path runs), the flag is set, the DOM is left
exactly as before (the legacy fallback removes the transient element it
appends before the handler returns), exactly one timer is scheduled for
2500 ms later, firing at any other instant changes nothing, and the timer's
own firing clears the flag and leaves no timer pending. When a second copy
overlaps a pending timer, the earlier timer may clear the flag sooner than
2.5 s after the later click (see the counterexample). -/
theorem C9_copyFlag_spec (s : WizardState) (now tOther : Nat) (ok : Bool)
    (hp : s.copyTimers = []) (ht : tOther ≠ now + 2500) :
    (handleCopyCommand s now ok).isCopied = true ∧
    (handleCopyCommand s now ok).domNodes = s.domNodes ∧
    (handleCopyCommand s now ok).copyTimers = [now + 2500] ∧
    fireCopyTimer (handleCopyCommand s now ok) tOther = handleCopyCommand s now ok ∧
    (fireCopyTimer (handleCopyCommand s now ok) (now + 2500)).isCopied = false ∧
    (fireCopyTimer (handleCopyCommand s now ok) (now + 2500)).copyTimers = [] := by
  have hdom : (handleCopyCommand s now ok).domNodes = s.domNodes := by
    cases ok with
    | true => rfl
    | false =>
      show legacyCopyDom s.domNodes = s.domNodes
      exact legacyCopyDom_id s.domNodes
  have hcopied : (handleCopyCommand s now ok).isCopied = true := by
    cases ok <;> rfl
  have htimers : (handleCopyCommand s now ok).copyTimers = [now + 2500] := by
    cases ok with
    | true =>
      show s.copyTimers ++ [now + 2500] = [now + 2500]
      rw [hp, List.nil_append]
    | false =>
      show s.copyTimers ++ [now + 2500] = [now + 2500]
      rw [hp, List.nil_append]
  refine ⟨hcopied, hdom, htimers, ?_, ?_, ?_⟩
  · unfold fireCopyTimer
    rw [if_neg]
    rw [htimers]
    simp [ht]
  · unfold fireCopyTimer
    rw [if_pos]
    rw [htimers]
    simp
  · unfold fireCopyTimer
    rw [if_pos]
    · show (handleCopyCommand s now ok).copyTimers.erase (now + 2500) = []
      rw [htimers, List.erase_cons_head]
    · rw [htimers]
      simp

/-- C9 witness: a single copy click at instant 0 through the legacy
fallback path sets the flag, leaves the DOM unchanged, is unaffected by a
firing attempt at instant 100, and is cleared by its own timer at 2500. -/
theorem C9_copyFlag_witness :
    initialState.copyTimers = [] ∧
    (handleCopyCommand initialState 0 false).isCopied = true ∧
    (handleCopyCommand initialState 0 false).domNodes = initialState.domNodes ∧
    fireCopyTimer (handleCopyCommand initialState 0 false) 100 =
      handleCopyCommand initialState 0 false ∧
    (fireCopyTimer (handleCopyCommand initialState 0 false) 2500).isCopied = false := by
  have h := C9_copyFlag_spec initialState 0 100 false rfl (by decide)
  exact ⟨rfl, h.1, h.2.1, h.2.2.2.1, h.2.2.2.2.1⟩
